import Mathlib

/-!
Verification of the audio-notes-app server core (src/unnamed/part_001,
first document): the turn-reassembly state machine of the websocket
handler, the Jaccard similarity engine, the extractive summarizer
`generateAdvancedSummary`, and the note-enhancement merger
`generateEnhancedNotes`.

The JavaScript source is shallowly embedded: strings are Lean `String`
(lists of characters), the insertion-ordered JS `Map` of completed turns
is an association list, JS `Set`s of token strings are `Finset String`,
and JS number arithmetic on exact values is `Nat`/`Int`/`Rat`.
JS string primitives used by the source (`trim`, `split(/\s+/)`,
`join(' ')`, regex replaces) are translated below as executable
functions on character lists.

The only part of the source that is not reproduced exactly is the
floating-point TF-IDF/position/keyword score of `calculateTFIDF` and the
score-descending sort of `generateAdvancedSummary`: the ranked list it
produces is passed in as an explicit parameter `rank`, constrained in
each theorem to be a permutation of the scored items, which is the only
property of the float sort the verified claims depend on.
-/

/-! ## JS string primitives -/

/-- JS `String.prototype.trim` on a character list: drop leading and
trailing whitespace. -/
def trimChars (l : List Char) : List Char :=
  ((l.dropWhile Char.isWhitespace).reverse.dropWhile Char.isWhitespace).reverse

/-- JS `text.trim()`. -/
def jsTrim (s : String) : String := String.mk (trimChars s.data)

/-- JS `array.join(' ')`. -/
def joinSpace : List String → String
  | [] => ""
  | [t] => t
  | t :: t' :: ts => t ++ " " ++ joinSpace (t' :: ts)

/-- Stable insertion of `x` after every element `y` with `le y x`;
together with `sortBy` this models the (stable) JS `Array.prototype.sort`. -/
def insertBy (le : α → α → Bool) (x : α) : List α → List α
  | [] => [x]
  | y :: ys => if le y x then y :: insertBy le x ys else x :: y :: ys

/-- Stable sort: insert the elements left to right. Models JS
`array.sort(cmp)` with `le a b = (cmp a b ≤ 0)`. -/
def sortBy (le : α → α → Bool) (l : List α) : List α :=
  l.foldl (fun acc x => insertBy le x acc) []

/-! ## Turn-reassembly state machine (websocket `Turn` handler) -/

/-- A `Turn` event from the streaming provider:
`{turn_order, end_of_turn, transcript, utterance}`. -/
structure TurnEvent where
  turn_order : Option Nat
  end_of_turn : Bool
  transcript : String
  utterance : Option String
deriving DecidableEq, Repr

/-- `data.turn_order ?? 0`. -/
def keyOf (e : TurnEvent) : Nat := e.turn_order.getD 0

/-- `data.utterance || data.transcript || ''` (JS `||` treats the empty
string as falsy). -/
def rawText (e : TurnEvent) : String :=
  match e.utterance with
  | some u => if u = "" then e.transcript else u
  | none => e.transcript

/-- `(data.utterance || data.transcript || '').trim()`. -/
def turnText (e : TurnEvent) : String := jsTrim (rawText e)

/-- Per-connection session state: the insertion-ordered
`completedTurns` map (`turn_order -> utterance text`) and
`currentPartialText`. -/
structure SessionState where
  completedTurns : List (Nat × String)
  currentPartialText : String
deriving DecidableEq, Repr

/-- Fresh state at connection open. -/
def initialState : SessionState := { completedTurns := [], currentPartialText := "" }

/-- `completedTurns.has(k)`. -/
def hasKey (ts : List (Nat × String)) (k : Nat) : Bool :=
  ts.any (fun p => decide (p.1 = k))

/-- Messages the handler sends to the client while processing `Turn`
events. -/
inductive Notification where
  | finalTranscript (text fullTranscript : String)
  | partialTranscript (text : String)
deriving DecidableEq, Repr

/-- Ascending comparison on the order key, `(a, b) => a[0] - b[0]`. -/
def keyLe (a b : Nat × String) : Bool := decide (a.1 ≤ b.1)

/-- Sort map entries ascending by order key. -/
def sortByKey (ts : List (Nat × String)) : List (Nat × String) := sortBy keyLe ts

/-- `buildFullTranscript`: sort the completed turns by order key
ascending, join their texts with single spaces, trim. -/
def buildFullTranscript (ts : List (Nat × String)) : String :=
  jsTrim (joinSpace ((sortByKey ts).map Prod.snd))

/-- The `case 'Turn'` branch of the AssemblyAI message handler: on
`end_of_turn`, store a non-empty text under a fresh order key, clear the
partial buffer, rebuild the transcript and notify; duplicates and empty
texts are dropped.  Otherwise a non-empty `transcript` updates the
partial buffer. -/
def processTurn (st : SessionState) (e : TurnEvent) : SessionState × List Notification :=
  if e.end_of_turn then
    if turnText e ≠ "" ∧ hasKey st.completedTurns (keyOf e) = false then
      ({ completedTurns := st.completedTurns ++ [(keyOf e, turnText e)],
         currentPartialText := "" },
        [Notification.finalTranscript (turnText e)
          (buildFullTranscript (st.completedTurns ++ [(keyOf e, turnText e)]))])
    else (st, [])
  else if e.transcript ≠ "" then
    ({ st with currentPartialText := e.transcript },
      [Notification.partialTranscript e.transcript])
  else (st, [])

/-- Deliver a sequence of `Turn` events to the session. -/
def runEvents (st : SessionState) (events : List TurnEvent) : SessionState :=
  events.foldl (fun s e => (processTurn s e).1) st

/-- The `(order key, stored text)` pairs of a list of events. -/
def turnPairs (events : List TurnEvent) : List (Nat × String) :=
  events.map (fun e => (keyOf e, turnText e))

/-! ## Similarity engine -/

/-- `jaccardSimilarity(set1, set2)`: `|A ∩ B| / |A ∪ B|`, and `0` when
the union is empty. -/
def jaccardSimilarity (set1 set2 : Finset String) : ℚ :=
  if 0 < (set1 ∪ set2).card then
    ((set1 ∩ set2).card : ℚ) / ((set1 ∪ set2).card : ℚ)
  else 0

/-! ## Basic lemmas about the string primitives -/

theorem dropWhile_eq_self_of_head? {p : Char → Bool} {l : List Char}
    (h : ∀ c, l.head? = some c → p c = false) : l.dropWhile p = l := by
  cases l with
  | nil => rfl
  | cons c cs =>
    have hc := h c rfl
    simp [List.dropWhile_cons, hc]

theorem trimChars_eq_self {l : List Char}
    (h1 : ∀ c, l.head? = some c → c.isWhitespace = false)
    (h2 : ∀ c, l.getLast? = some c → c.isWhitespace = false) :
    trimChars l = l := by
  unfold trimChars
  rw [dropWhile_eq_self_of_head? h1]
  rw [dropWhile_eq_self_of_head? (by simpa using h2)]
  exact l.reverse_reverse

theorem head?_dropWhile_not (p : Char → Bool) (l : List Char) :
    ∀ c, (l.dropWhile p).head? = some c → p c = false := by
  induction l with
  | nil => simp
  | cons x xs ih =>
    intro c hc
    rw [List.dropWhile_cons] at hc
    by_cases hx : p x = true
    · exact ih c (by simpa [hx] using hc)
    · rw [if_neg hx] at hc
      have hxc : x = c := by simpa using hc
      subst hxc
      simpa using hx

theorem trimChars_getLast? (l : List Char) :
    ∀ c, (trimChars l).getLast? = some c → c.isWhitespace = false := by
  intro c hc
  unfold trimChars at hc
  rw [List.getLast?_reverse] at hc
  exact head?_dropWhile_not _ _ c hc

theorem trimChars_head? (l : List Char) :
    ∀ c, (trimChars l).head? = some c → c.isWhitespace = false := by
  intro c hc
  unfold trimChars at hc
  rw [List.head?_reverse] at hc
  -- `c` is the last element of `dropWhile ws (reverse (dropWhile ws l))`,
  -- which is a suffix of `reverse (dropWhile ws l)`; its last element is
  -- the head of `dropWhile ws l`, hence not whitespace.
  obtain ⟨t, ht⟩ := List.dropWhile_suffix
    (l := (l.dropWhile Char.isWhitespace).reverse) (p := Char.isWhitespace)
  have hlast : (l.dropWhile Char.isWhitespace).reverse.getLast? = some c := by
    rw [← ht, List.getLast?_append, hc]
    exact rfl
  rw [List.getLast?_reverse] at hlast
  exact head?_dropWhile_not _ _ c hlast

theorem trimChars_idem (l : List Char) : trimChars (trimChars l) = trimChars l :=
  trimChars_eq_self (trimChars_head? l) (trimChars_getLast? l)

theorem jsTrim_idem (s : String) : jsTrim (jsTrim s) = jsTrim s := by
  unfold jsTrim
  exact congrArg String.mk (trimChars_idem s.data)

theorem data_ne_nil_of_ne_empty {s : String} (h : s ≠ "") : s.data ≠ [] := by
  intro hd
  apply h
  cases s with
  | mk d => cases hd; rfl

/-- Head and last character of a space-join of solid strings: they come
from the first resp. last string of the list. -/
theorem joinSpace_head? (t : String) (ts : List String) (ht : t.data ≠ []) :
    (joinSpace (t :: ts)).data.head? = t.data.head? := by
  cases ts with
  | nil => rfl
  | cons t' ts' =>
    show ((t ++ " ") ++ joinSpace (t' :: ts')).data.head? = t.data.head?
    rw [String.data_append, String.data_append, List.append_assoc, List.head?_append]
    cases hd : t.data with
    | nil => exact absurd hd ht
    | cons c cs => simp

theorem joinSpace_data_ne_nil (t : String) (ts : List String) (ht : t.data ≠ []) :
    (joinSpace (t :: ts)).data ≠ [] := by
  intro h
  have := joinSpace_head? t ts ht
  rw [h] at this
  cases hd : t.data with
  | nil => exact ht hd
  | cons c cs => rw [hd] at this; simp at this

theorem joinSpace_getLast? (l : List String)
    (h : ∀ t ∈ l, t.data ≠ []) :
    ∀ c, (joinSpace l).data.getLast? = some c →
      ∃ t ∈ l, t.data.getLast? = some c := by
  induction l with
  | nil => intro c hc; simp [joinSpace] at hc
  | cons t ts ih =>
    intro c hc
    cases ts with
    | nil => exact ⟨t, by simp, hc⟩
    | cons t' ts' =>
      have hrest : (joinSpace (t' :: ts')).data ≠ [] :=
        joinSpace_data_ne_nil t' ts' (h t' (by simp))
      have hx : ((t ++ " ") ++ joinSpace (t' :: ts')).data.getLast? = some c := hc
      rw [String.data_append, List.getLast?_append] at hx
      cases hj : (joinSpace (t' :: ts')).data.getLast? with
      | none =>
        exact absurd (List.getLast?_eq_none_iff.mp hj) hrest
      | some d =>
        rw [hj] at hx
        have hdc : d = c := Option.some.inj hx
        subst hdc
        obtain ⟨u, hu, hud⟩ :=
          ih (fun x hx' => h x (List.mem_cons_of_mem _ hx')) d hj
        exact ⟨u, List.mem_cons_of_mem _ hu, hud⟩

theorem mk_data (s : String) : String.mk s.data = s := rfl

/-- A space-join of non-empty strings that neither start nor end with
whitespace is itself trim-fixed: the code's final `.trim()` is the
identity there. -/
theorem jsTrim_joinSpace (l : List String)
    (h : ∀ t ∈ l, t.data ≠ [] ∧
      (∀ c, t.data.head? = some c → c.isWhitespace = false) ∧
      (∀ c, t.data.getLast? = some c → c.isWhitespace = false)) :
    jsTrim (joinSpace l) = joinSpace l := by
  unfold jsTrim
  rw [trimChars_eq_self, mk_data]
  · intro c hc
    cases l with
    | nil => simp [joinSpace] at hc
    | cons t ts =>
      rw [joinSpace_head? t ts (h t (by simp)).1] at hc
      exact (h t (by simp)).2.1 c hc
  · intro c hc
    obtain ⟨u, hu, hud⟩ := joinSpace_getLast? _ (fun t ht => (h t ht).1) c hc
    exact (h u hu).2.2 c hud

/-! ## Lemmas about the stable sort -/

theorem insertBy_perm (le : α → α → Bool) (x : α) (l : List α) :
    (insertBy le x l).Perm (x :: l) := by
  induction l with
  | nil => exact List.Perm.refl _
  | cons y ys ih =>
    unfold insertBy
    by_cases hle : le y x = true
    · rw [if_pos hle]
      exact (ih.cons y).trans (List.Perm.swap x y ys)
    · rw [if_neg hle]

theorem foldl_insertBy_perm (le : α → α → Bool) (l : List α) :
    ∀ acc : List α,
      (l.foldl (fun acc x => insertBy le x acc) acc).Perm (acc ++ l) := by
  induction l with
  | nil => intro acc; simp
  | cons x xs ih =>
    intro acc
    have h1 := ih (insertBy le x acc)
    have h2 : (insertBy le x acc ++ xs).Perm ((x :: acc) ++ xs) :=
      (insertBy_perm le x acc).append_right xs
    refine (h1.trans (h2.trans ?_))
    exact (List.perm_middle).symm

theorem sortBy_perm (le : α → α → Bool) (l : List α) :
    (sortBy le l).Perm l := by
  simpa using foldl_insertBy_perm le l []

theorem insertBy_mem {le : α → α → Bool} {x a : α} {l : List α} :
    a ∈ insertBy le x l ↔ a = x ∨ a ∈ l := by
  rw [(insertBy_perm le x l).mem_iff, List.mem_cons]

theorem insertBy_pairwise {le : α → α → Bool}
    (htotal : ∀ a b, le a b = true ∨ le b a = true)
    (htrans : ∀ a b c, le a b = true → le b c = true → le a c = true)
    {x : α} {l : List α} (h : l.Pairwise (fun a b => le a b = true)) :
    (insertBy le x l).Pairwise (fun a b => le a b = true) := by
  induction l with
  | nil => simp [insertBy]
  | cons y ys ih =>
    rw [List.pairwise_cons] at h
    unfold insertBy
    by_cases hle : le y x = true
    · rw [if_pos hle]
      refine List.Pairwise.cons ?_ (ih h.2)
      intro z hz
      rcases insertBy_mem.mp hz with hz | hz
      · cases hz; exact hle
      · exact h.1 z hz
    · rw [if_neg hle]
      have hxy : le x y = true := (htotal x y).resolve_right (fun hh => hle hh)
      refine List.Pairwise.cons ?_ (List.Pairwise.cons h.1 h.2)
      intro z hz
      rcases List.mem_cons.mp hz with hz | hz
      · cases hz; exact hxy
      · exact htrans x y z hxy (h.1 z hz)

theorem sortBy_pairwise {le : α → α → Bool}
    (htotal : ∀ a b, le a b = true ∨ le b a = true)
    (htrans : ∀ a b c, le a b = true → le b c = true → le a c = true)
    (l : List α) :
    (sortBy le l).Pairwise (fun a b => le a b = true) := by
  suffices h : ∀ acc : List α, acc.Pairwise (fun a b => le a b = true) →
      (l.foldl (fun acc x => insertBy le x acc) acc).Pairwise
        (fun a b => le a b = true) by
    exact h [] (List.Pairwise.nil)
  induction l with
  | nil => intro acc hacc; exact hacc
  | cons x xs ih =>
    intro acc hacc
    exact ih _ (insertBy_pairwise htotal htrans hacc)

theorem sortBy_length (le : α → α → Bool) (l : List α) :
    (sortBy le l).length = l.length :=
  (sortBy_perm le l).length_eq

/-! ## Sorting map entries by distinct keys is canonical -/

theorem keyLe_total : ∀ a b : Nat × String, keyLe a b = true ∨ keyLe b a = true := by
  intro a b
  unfold keyLe
  rcases Nat.le_total a.1 b.1 with h | h
  · left; exact decide_eq_true h
  · right; exact decide_eq_true h

theorem keyLe_trans : ∀ a b c : Nat × String,
    keyLe a b = true → keyLe b c = true → keyLe a c = true := by
  intro a b c hab hbc
  unfold keyLe at *
  exact decide_eq_true (Nat.le_trans (of_decide_eq_true hab) (of_decide_eq_true hbc))

/-- Two permutations of the same entries with pairwise-distinct keys have
the same key-sorted form: the sorted transcript is canonical. -/
theorem sortByKey_eq_of_perm {l l' : List (Nat × String)}
    (hperm : l.Perm l') (hnd : (l.map Prod.fst).Nodup) :
    sortByKey l = sortByKey l' := by
  have hnd' : (l'.map Prod.fst).Nodup := ((hperm.map Prod.fst).nodup_iff).mp hnd
  have hstrict : ∀ m : List (Nat × String), (m.map Prod.fst).Nodup →
      (sortByKey m).Pairwise (fun a b => a.1 < b.1) := by
    intro m hm
    have hs : (sortByKey m).Pairwise (fun a b => keyLe a b = true) :=
      sortBy_pairwise keyLe_total keyLe_trans m
    have hn : (sortByKey m).Pairwise (fun a b => a.1 ≠ b.1) := by
      have hnd2 : ((sortByKey m).map Prod.fst).Nodup :=
        (((sortBy_perm keyLe m).map Prod.fst).nodup_iff).mpr hm
      exact List.pairwise_map.mp hnd2
    exact (hs.and hn).imp (fun hab =>
      Nat.lt_of_le_of_ne (of_decide_eq_true hab.1) hab.2)
  haveI : IsAntisymm (Nat × String) (fun a b => a.1 < b.1) :=
    ⟨fun a b h1 h2 => absurd h2 (Nat.lt_asymm h1)⟩
  exact List.eq_of_perm_of_sorted
    (((sortBy_perm keyLe l).trans hperm).trans (sortBy_perm keyLe l').symm)
    (hstrict l hnd) (hstrict l' hnd')

/-! ## Lemmas about the Turn handler -/

theorem processTurn_store (st : SessionState) (e : TurnEvent)
    (hf : e.end_of_turn = true) (ht : turnText e ≠ "")
    (hk : hasKey st.completedTurns (keyOf e) = false) :
    processTurn st e =
      ({ completedTurns := st.completedTurns ++ [(keyOf e, turnText e)],
         currentPartialText := "" },
        [Notification.finalTranscript (turnText e)
          (buildFullTranscript (st.completedTurns ++ [(keyOf e, turnText e)]))]) := by
  unfold processTurn
  rw [if_pos hf, if_pos ⟨ht, hk⟩]

theorem processTurn_skip (st : SessionState) (e : TurnEvent)
    (hf : e.end_of_turn = true)
    (h : turnText e = "" ∨ hasKey st.completedTurns (keyOf e) = true) :
    processTurn st e = (st, []) := by
  unfold processTurn
  rw [if_pos hf, if_neg]
  intro hcond
  rcases h with h | h
  · exact hcond.1 h
  · rw [hcond.2] at h; exact Bool.false_ne_true h

theorem processTurn_completedTurns (st : SessionState) (e : TurnEvent) :
    (processTurn st e).1.completedTurns = st.completedTurns ∨
    ((processTurn st e).1.completedTurns
        = st.completedTurns ++ [(keyOf e, turnText e)] ∧ turnText e ≠ "") := by
  unfold processTurn
  by_cases hf : e.end_of_turn = true
  · rw [if_pos hf]
    by_cases hc : turnText e ≠ "" ∧ hasKey st.completedTurns (keyOf e) = false
    · rw [if_pos hc]; exact Or.inr ⟨rfl, hc.1⟩
    · rw [if_neg hc]; exact Or.inl rfl
  · rw [if_neg hf]
    by_cases htr : e.transcript ≠ ""
    · rw [if_pos htr]; exact Or.inl rfl
    · rw [if_neg htr]; exact Or.inl rfl

theorem runEvents_cons (st : SessionState) (e : TurnEvent) (es : List TurnEvent) :
    runEvents st (e :: es) = runEvents (processTurn st e).1 es := rfl

theorem hasKey_append_single (ts : List (Nat × String)) (k k' : Nat) (t : String) :
    hasKey (ts ++ [(k, t)]) k' = (hasKey ts k' || decide (k = k')) := by
  simp [hasKey, List.any_append]

/-- Every text ever stored in the completed-turns map is non-empty and
trim-fixed. -/
theorem runEvents_stored_invariant (events : List TurnEvent) :
    ∀ st : SessionState,
      (∀ p ∈ st.completedTurns, p.2 ≠ "" ∧ jsTrim p.2 = p.2) →
      ∀ p ∈ (runEvents st events).completedTurns, p.2 ≠ "" ∧ jsTrim p.2 = p.2 := by
  induction events with
  | nil => intro st h; exact h
  | cons e es ih =>
    intro st h
    rw [runEvents_cons]
    apply ih
    rcases processTurn_completedTurns st e with hc | ⟨hc, hne⟩
    · rw [hc]; exact h
    · rw [hc]
      intro p hp
      rcases List.mem_append.mp hp with hp | hp
      · exact h p hp
      · rcases List.mem_singleton.mp hp with rfl
        refine ⟨hne, ?_⟩
        unfold turnText
        exact jsTrim_idem _

/-- A string that is non-empty and trim-fixed starts and ends with a
non-whitespace character. -/
def solidString (t : String) : Prop :=
  t.data ≠ [] ∧ (∀ c, t.data.head? = some c → c.isWhitespace = false) ∧
    (∀ c, t.data.getLast? = some c → c.isWhitespace = false)

theorem solid_of_trim_fixed {t : String} (h1 : t ≠ "") (h2 : jsTrim t = t) :
    solidString t := by
  have hd : trimChars t.data = t.data := congrArg String.data h2
  refine ⟨data_ne_nil_of_ne_empty h1, ?_, ?_⟩
  · intro c hc; rw [← hd] at hc; exact trimChars_head? _ c hc
  · intro c hc; rw [← hd] at hc; exact trimChars_getLast? _ c hc

/-- Fresh-key run: when every event is a final turn with non-empty text
and a key not seen before, the completed-turns map accumulates exactly
the `(key, text)` pairs, in arrival order. -/
theorem runEvents_all_fresh (events : List TurnEvent) :
    ∀ st : SessionState,
      (∀ e ∈ events, e.end_of_turn = true) →
      (∀ e ∈ events, turnText e ≠ "") →
      (events.map keyOf).Nodup →
      (∀ e ∈ events, hasKey st.completedTurns (keyOf e) = false) →
      (runEvents st events).completedTurns = st.completedTurns ++ turnPairs events := by
  induction events with
  | nil => intro st _ _ _ _; simp [runEvents, turnPairs]
  | cons e es ih =>
    intro st hfin htxt hnd hfresh
    have hstep := processTurn_store st e (hfin e (by simp)) (htxt e (by simp))
      (hfresh e (by simp))
    rw [runEvents_cons, hstep]
    have hndtail : (es.map keyOf).Nodup := by
      rw [List.map_cons, List.nodup_cons] at hnd
      exact hnd.2
    have hheadfresh : keyOf e ∉ es.map keyOf := by
      rw [List.map_cons, List.nodup_cons] at hnd
      exact hnd.1
    rw [ih _ (fun x hx => hfin x (List.mem_cons_of_mem _ hx))
        (fun x hx => htxt x (List.mem_cons_of_mem _ hx)) hndtail ?fresh]
    · simp [turnPairs]
    case fresh =>
      intro x hx
      rw [hasKey_append_single]
      have h1 : hasKey st.completedTurns (keyOf x) = false :=
        hfresh x (List.mem_cons_of_mem _ hx)
      have h2 : keyOf e ≠ keyOf x := by
        intro hcontra
        exact hheadfresh (hcontra ▸ List.mem_map_of_mem keyOf hx)
      simp [h1, h2]

/-- After delivering any sequence of distinct-key, non-empty final
turns, the transcript is the canonical space-join of the texts sorted
ascending by order key. -/
theorem transcript_of_distinct_turns (events : List TurnEvent)
    (hfin : ∀ e ∈ events, e.end_of_turn = true)
    (htxt : ∀ e ∈ events, turnText e ≠ "")
    (hnd : (events.map keyOf).Nodup) :
    buildFullTranscript (runEvents initialState events).completedTurns
      = joinSpace ((sortByKey (turnPairs events)).map Prod.snd) := by
  have hrun : (runEvents initialState events).completedTurns = turnPairs events := by
    have h := runEvents_all_fresh events initialState hfin htxt hnd
      (fun e _ => by simp [initialState, hasKey])
    simpa [initialState] using h
  rw [hrun]
  unfold buildFullTranscript
  apply jsTrim_joinSpace
  intro t htm
  obtain ⟨p, hp, hpt⟩ := List.mem_map.mp htm
  have hpmem : p ∈ turnPairs events := (sortBy_perm keyLe _).mem_iff.mp hp
  obtain ⟨e, he, hpe⟩ := List.mem_map.mp hpmem
  have h1 : turnText e ≠ "" := htxt e he
  have h2 : jsTrim (turnText e) = turnText e := by
    unfold turnText; exact jsTrim_idem _
  have hsolid := solid_of_trim_fixed h1 h2
  have ht : t = turnText e := by rw [← hpt, ← hpe]
  rw [ht]
  exact ⟨hsolid.1, hsolid.2.1, hsolid.2.2⟩

/-! ## Claim theorems: turn reassembly -/

/-- C1: for any sequence of final `Turn` events with pairwise-distinct
order keys (and non-empty texts, which are the only texts the handler
records), delivered in any arrival order, the resulting full transcript
is the single-space concatenation of the turn texts sorted ascending by
order key; in particular it is invariant under permuting the arrival
order. -/
theorem c1_transcript_ordering (events : List TurnEvent)
    (hfin : ∀ e ∈ events, e.end_of_turn = true)
    (htxt : ∀ e ∈ events, turnText e ≠ "")
    (hnd : (events.map keyOf).Nodup) :
    buildFullTranscript (runEvents initialState events).completedTurns
      = joinSpace ((sortByKey (turnPairs events)).map Prod.snd) ∧
    ∀ events' : List TurnEvent, events'.Perm events →
      buildFullTranscript (runEvents initialState events').completedTurns
        = buildFullTranscript (runEvents initialState events).completedTurns := by
  refine ⟨transcript_of_distinct_turns events hfin htxt hnd, ?_⟩
  intro events' hperm
  have hfin' : ∀ e ∈ events', e.end_of_turn = true :=
    fun e he => hfin e (hperm.mem_iff.mp he)
  have htxt' : ∀ e ∈ events', turnText e ≠ "" :=
    fun e he => htxt e (hperm.mem_iff.mp he)
  have hnd' : (events'.map keyOf).Nodup := ((hperm.map keyOf).nodup_iff).mpr hnd
  rw [transcript_of_distinct_turns events' hfin' htxt' hnd',
    transcript_of_distinct_turns events hfin htxt hnd]
  have hsorteq : sortByKey (turnPairs events') = sortByKey (turnPairs events) := by
    apply sortByKey_eq_of_perm (hperm.map _)
    simpa [turnPairs, List.map_map, Function.comp] using hnd'
  rw [hsorteq]

/-- Witness for C1, the spec's scenario: order keys 2 then 1 arriving in
that order, both final; the transcript is text(1) then text(2). -/
theorem c1_transcript_ordering_witness :
    buildFullTranscript (runEvents initialState
        [⟨some 2, true, "world", none⟩, ⟨some 1, true, "hello", none⟩]).completedTurns
      = "hello world" := by
  have h := (c1_transcript_ordering
      [⟨some 2, true, "world", none⟩, ⟨some 1, true, "hello", none⟩]
      (by decide) (by decide) (by decide)).1
  rw [h]
  decide

/-- C2: a final `Turn` event whose order key is already recorded leaves
the session state exactly as it was and emits nothing; hence delivering
the same completed-turn event twice is the same as delivering it once,
and a recorded text is never overwritten. -/
theorem c2_duplicate_turn_ignored (st : SessionState) (e : TurnEvent)
    (hf : e.end_of_turn = true) :
    (hasKey st.completedTurns (keyOf e) = true → processTurn st e = (st, [])) ∧
    (processTurn (processTurn st e).1 e).1 = (processTurn st e).1 := by
  constructor
  · intro hk
    exact processTurn_skip st e hf (Or.inr hk)
  · by_cases ht : turnText e = ""
    · simp [processTurn_skip st e hf (Or.inl ht)]
    · by_cases hk : hasKey st.completedTurns (keyOf e) = false
      · have hstep := processTurn_store st e hf ht hk
        rw [hstep]
        have hk2 : hasKey (st.completedTurns ++ [(keyOf e, turnText e)])
            (keyOf e) = true := by
          simp [hasKey, List.any_append]
        rw [processTurn_skip _ e hf (Or.inr hk2)]
      · have hk' : hasKey st.completedTurns (keyOf e) = true := by
          cases h : hasKey st.completedTurns (keyOf e)
          · exact absurd h hk
          · rfl
        simp [processTurn_skip st e hf (Or.inr hk')]

/-- Witness for C2: a duplicate of the already-recorded turn 0 leaves the
session untouched. -/
theorem c2_duplicate_turn_ignored_witness :
    processTurn ⟨[(0, "hi")], ""⟩ ⟨some 0, true, "dup", none⟩
      = (⟨[(0, "hi")], ""⟩, []) :=
  (c2_duplicate_turn_ignored ⟨[(0, "hi")], ""⟩ ⟨some 0, true, "dup", none⟩
    rfl).1 (by decide)

/-- C10: a final `Turn` whose effective text trims to the empty string is
ignored completely (state unchanged, nothing emitted); every stored text
is non-empty and trim-fixed, so the transcript is the plain single-space
join of the sorted texts, each of which starts and ends with a
non-whitespace character — the join's separator spaces never double up. -/
theorem c10_empty_final_turn_ignored (st : SessionState) (e : TurnEvent)
    (events : List TurnEvent)
    (hf : e.end_of_turn = true) (ht : turnText e = "") :
    processTurn st e = (st, []) ∧
    (∀ p ∈ (runEvents initialState events).completedTurns,
        p.2 ≠ "" ∧ jsTrim p.2 = p.2) ∧
    (∀ t ∈ (sortByKey (runEvents initialState events).completedTurns).map Prod.snd,
        solidString t) ∧
    buildFullTranscript (runEvents initialState events).completedTurns
      = joinSpace
          ((sortByKey (runEvents initialState events).completedTurns).map Prod.snd) := by
  have hinv : ∀ p ∈ (runEvents initialState events).completedTurns,
      p.2 ≠ "" ∧ jsTrim p.2 = p.2 :=
    runEvents_stored_invariant events initialState
      (by intro p hp; simp [initialState] at hp)
  have hsolid : ∀ t ∈ (sortByKey
      (runEvents initialState events).completedTurns).map Prod.snd,
      solidString t := by
    intro t htm
    obtain ⟨p, hp, hpt⟩ := List.mem_map.mp htm
    have hpmem : p ∈ (runEvents initialState events).completedTurns :=
      (sortBy_perm keyLe _).mem_iff.mp hp
    have h := hinv p hpmem
    rw [← hpt]
    exact solid_of_trim_fixed h.1 h.2
  refine ⟨processTurn_skip st e hf (Or.inl ht), hinv, hsolid, ?_⟩
  unfold buildFullTranscript
  apply jsTrim_joinSpace
  intro t htm
  have h := hsolid t htm
  exact ⟨h.1, h.2.1, h.2.2⟩

/-- Witness for C10: a final turn carrying only whitespace is dropped. -/
theorem c10_empty_final_turn_ignored_witness :
    processTurn ⟨[(0, "hi")], "p"⟩ ⟨some 3, true, "", some "   "⟩
      = (⟨[(0, "hi")], "p"⟩, []) ∧
    buildFullTranscript (runEvents initialState
        [⟨some 1, true, "b", none⟩, ⟨some 0, true, "a", none⟩]).completedTurns
      = joinSpace ((sortByKey (runEvents initialState
          [⟨some 1, true, "b", none⟩, ⟨some 0, true, "a", none⟩]).completedTurns).map
            Prod.snd) := by
  have h := c10_empty_final_turn_ignored ⟨[(0, "hi")], "p"⟩
    ⟨some 3, true, "", some "   "⟩
    [⟨some 1, true, "b", none⟩, ⟨some 0, true, "a", none⟩]
    rfl (by decide)
  exact ⟨h.1, h.2.2.2⟩

/-! ## Claim theorem: Jaccard similarity -/

/-- C3: `jaccardSimilarity` always lies in `[0, 1]`, is `1` on any
non-empty set compared with itself, and is a defined `0` on two empty
sets. -/
theorem c3_jaccard_bounds (A B : Finset String) :
    0 ≤ jaccardSimilarity A B ∧ jaccardSimilarity A B ≤ 1 ∧
    (A.Nonempty → jaccardSimilarity A A = 1) ∧
    jaccardSimilarity ∅ ∅ = 0 := by
  refine ⟨?_, ?_, ?_, ?_⟩
  · unfold jaccardSimilarity
    by_cases h : 0 < (A ∪ B).card
    · rw [if_pos h]
      positivity
    · rw [if_neg h]
  · unfold jaccardSimilarity
    by_cases h : 0 < (A ∪ B).card
    · rw [if_pos h]
      rw [div_le_one (by exact_mod_cast h)]
      exact_mod_cast Finset.card_le_card Finset.inter_subset_union
    · rw [if_neg h]
      norm_num
  · intro hA
    unfold jaccardSimilarity
    rw [Finset.inter_self, Finset.union_self]
    have hpos : 0 < A.card := Finset.card_pos.mpr hA
    rw [if_pos hpos]
    rw [div_self]
    exact_mod_cast Nat.pos_iff_ne_zero.mp hpos
  · unfold jaccardSimilarity
    simp

/-- Witness for C3: a singleton against itself scores `1`, and the bound
holds on a concrete disjoint pair. -/
theorem c3_jaccard_bounds_witness :
    jaccardSimilarity {"budget"} {"budget"} = 1 ∧
    0 ≤ jaccardSimilarity {"alpha"} {"beta"} :=
  ⟨(c3_jaccard_bounds {"budget"} {"budget"}).2.2.1 ⟨"budget", by decide⟩,
   (c3_jaccard_bounds {"alpha"} {"beta"}).1⟩

/-! ## Tokenizer / segmenter

The regex-based string transformations of the source are translated as
explicit scanners over character lists.  Scanners that skip a variable
number of characters per step take a fuel argument (initialised to the
input length, which each step decrements by one while consuming at least
one character, so the fuel never runs out). -/

/-- JS `\w`: ASCII letters, digits, underscore. -/
def isWordChar (c : Char) : Bool :=
  decide (('a' ≤ c ∧ c ≤ 'z') ∨ ('A' ≤ c ∧ c ≤ 'Z') ∨ ('0' ≤ c ∧ c ≤ '9') ∨ c = '_')

/-- Does the remaining input start with whitespace (regex `\s` lookahead)? -/
def headIsWs : List Char → Bool
  | [] => false
  | c :: _ => c.isWhitespace

/-- JS `s.split(/\s+/)` scanner: pieces between maximal whitespace runs,
keeping the empty leading/trailing pieces JS produces. -/
def splitWsGo : Nat → List Char → List Char → List String
  | 0, _, acc => [String.mk acc.reverse]
  | _ + 1, [], acc => [String.mk acc.reverse]
  | fuel + 1, c :: cs, acc =>
    if c.isWhitespace then
      String.mk acc.reverse :: splitWsGo fuel (cs.dropWhile Char.isWhitespace) []
    else splitWsGo fuel cs (c :: acc)

def jsSplitWsList (l : List Char) : List String := splitWsGo l.length l []

/-- JS `s.split(/\s+/)`. -/
def jsSplitWs (s : String) : List String := jsSplitWsList s.data

/-- Sentence-final punctuation `[.!?]`. -/
def isSentPunct (c : Char) : Bool := decide (c = '.' ∨ c = '!' ∨ c = '?')

/-- `text.replace(/([.!?])\s+/g, '$1|||')`. -/
def sentReplGo : Nat → List Char → List Char
  | 0, _ => []
  | _ + 1, [] => []
  | fuel + 1, c :: cs =>
    if isSentPunct c && headIsWs cs then
      c :: '|' :: '|' :: '|' :: sentReplGo fuel (cs.dropWhile Char.isWhitespace)
    else c :: sentReplGo fuel cs

def sentRepl (l : List Char) : List Char := sentReplGo l.length l

/-- `.split('|||')`. -/
def splitBarsGo : Nat → List Char → List Char → List String
  | 0, _, acc => [String.mk acc.reverse]
  | _ + 1, [], acc => [String.mk acc.reverse]
  | fuel + 1, '|' :: '|' :: '|' :: rest, acc =>
    String.mk acc.reverse :: splitBarsGo fuel rest []
  | fuel + 1, c :: cs, acc => splitBarsGo fuel cs (c :: acc)

def splitBars (l : List Char) : List String := splitBarsGo l.length l []

/-- `text.replace(/,\s+/g, '|||')`. -/
def commaReplGo : Nat → List Char → List Char
  | 0, _ => []
  | _ + 1, [] => []
  | fuel + 1, c :: cs =>
    if decide (c = ',') && headIsWs cs then
      '|' :: '|' :: '|' :: commaReplGo fuel (cs.dropWhile Char.isWhitespace)
    else c :: commaReplGo fuel cs

def commaRepl (l : List Char) : List Char := commaReplGo l.length l

/-- The coordinating connectives of the second-tier split, in the
alternation order of the source regex. -/
def connWords : List String :=
  ["and", "but", "so", "because", "however", "therefore", "then", "also"]

/-- Case-insensitive literal prefix match; returns the matched original
characters and the remainder of the input. -/
def ciPrefix : List Char → List Char → Option (List Char × List Char)
  | [], rest => some ([], rest)
  | _ :: _, [] => none
  | p :: ps, c :: cs =>
    if c.toLower = p then
      match ciPrefix ps cs with
      | some (m, r) => some (c :: m, r)
      | none => none
    else none

/-- Try `/\s+(and|but|...)\s+/i` at the current position: a whitespace
run, then the first alternative that matches case-insensitively and is
followed by another whitespace run. -/
def tryConn (l : List Char) : Option (List Char × List Char) :=
  match l with
  | [] => none
  | c :: _ =>
    if c.isWhitespace then
      connWords.findSome? (fun w =>
        match ciPrefix w.data (l.dropWhile Char.isWhitespace) with
        | some (m, r) =>
          match r with
          | [] => none
          | c' :: _ =>
            if c'.isWhitespace then some (m, r.dropWhile Char.isWhitespace)
            else none
        | none => none)
    else none

/-- `.replace(/\s+(and|but|so|because|however|therefore|then|also)\s+/gi,
'|||$1 ')`. -/
def connReplGo : Nat → List Char → List Char
  | 0, _ => []
  | _ + 1, [] => []
  | fuel + 1, c :: cs =>
    match tryConn (c :: cs) with
    | some (m, rest) => '|' :: '|' :: '|' :: (m ++ ' ' :: connReplGo fuel rest)
    | none => c :: connReplGo fuel cs

def connRepl (l : List Char) : List Char := connReplGo l.length l

/-- Third-tier fallback: chunk the word list 15 at a time, joining each
chunk with single spaces. -/
def chunks15Go : Nat → List String → List String
  | 0, _ => []
  | _ + 1, [] => []
  | fuel + 1, w :: ws => joinSpace ((w :: ws).take 15) :: chunks15Go fuel ((w :: ws).drop 15)

def chunks15 (l : List String) : List String := chunks15Go l.length l

/-- `splitIntoSentences`: split at sentence-final punctuation; if fewer
than 3 pieces survive and the text is long, re-split at commas and
coordinating connectives; if still fewer than 3, chunk by 15-word
windows. -/
def splitIntoSentences (text : String) : List String :=
  let s1 := ((splitBars (sentRepl text.data)).map jsTrim).filter
    (fun s => decide (10 < s.length))
  let s2 := if s1.length < 3 ∧ 100 < text.length then
      ((splitBars (connRepl (commaRepl text.data))).map jsTrim).filter
        (fun s => decide (15 < s.length))
    else s1
  if s2.length < 3 ∧ 100 < text.length then
    (chunks15 (jsSplitWsList text.data)).filter (fun s => decide (15 < s.length))
  else s2

/-! ## Extractive summarizer -/

/-- The obligation/intent alternatives of the action-item regex, in
source order. -/
def actionPhrases : List String :=
  ["need to", "have to", "must", "should", "will", "going to", "plan to",
   "todo", "task", "action", "deadline", "by", "until", "before"]

/-- Case-insensitive match of `phrase` at the head of the input,
requiring a word boundary (`\b`) after it. -/
def phraseAt : List Char → List Char → Bool
  | [], [] => true
  | [], c :: _ => !(isWordChar c)
  | _ :: _, [] => false
  | p :: ps, c :: cs => decide (c.toLower = p.toLower) && phraseAt ps cs

/-- Scan for a phrase occurrence starting at a word boundary
(`prevIsWord` tracks whether the previous character was a word
character). -/
def actionScanGo : List Char → Bool → Bool
  | [], _ => false
  | c :: cs, prevIsWord =>
    (!prevIsWord && actionPhrases.any (fun p => phraseAt p.data (c :: cs)))
      || actionScanGo cs (isWordChar c)

/-- `/\b(need to|have to|must|should|will|going to|plan to|todo|task|action|deadline|by|until|before)\b/i.test(sentence)`. -/
def isActionSentence (s : String) : Bool := actionScanGo s.data false

/-- `array.join('. ')`. -/
def joinDotSpace : List String → String
  | [] => ""
  | [t] => t
  | t :: t' :: ts => t ++ ". " ++ joinDotSpace (t' :: ts)

/-- `.replace(/\.\./g, '.')`. -/
def replaceDotDotGo : List Char → List Char
  | '.' :: '.' :: rest => '.' :: replaceDotDotGo rest
  | c :: rest => c :: replaceDotDotGo rest
  | [] => []

/-- JS `s.substring(a, b)`. -/
def jsSubstring (s : String) (a b : Nat) : String :=
  String.mk ((s.data.take b).drop a)

/-- JS `Math.round` on an exact rational (half rounds up). -/
def jsRound (q : ℚ) : ℤ := ⌊q + 1 / 2⌋

/-- The record returned by `generateAdvancedSummary`.  The two
short-circuit branches of the source return no `compressionRatio` field,
hence the `Option`. -/
structure SummaryResult where
  keyPoints : List String
  summary : String
  actionItems : List String
  wordCount : Nat
  sentenceCount : Nat
  compressionRatio : Option ℤ
deriving DecidableEq, Repr

/-- `Math.min(Math.max(2, Math.ceil(sentenceCount * 0.3)), 5)`. -/
def targetCount (n : Nat) : Nat := min (max 2 ((3 * n + 9) / 10)) 5

/-- Select the top-ranked sentences up to the target, then re-sort the
selection by original index (`summaryParts.sort((a, b) => a.index - b.index)`). -/
def selectSummary (ranked : List (Nat × String)) (n : Nat) : List (Nat × String) :=
  sortByKey (ranked.take (targetCount n))

/-- `summaryParts.map(p => p.sentence).join('. ').replace(/\.\./g, '.')`. -/
def joinedSummary (parts : List (Nat × String)) : String :=
  String.mk (replaceDotDotGo (joinDotSpace (parts.map Prod.snd)).data)

/-- `summary || cleanText.substring(0, 200) + '...'`. -/
def renderSummary (parts : List (Nat × String)) (cleanText : String) : String :=
  if joinedSummary parts = "" then jsSubstring cleanText 0 200 ++ "..."
  else joinedSummary parts

/-- Backfill of key points from the summary selection (cap 5, no
duplicates). -/
def backfillKeyPoints (kps : List String) (parts : List String) : List String :=
  parts.foldl
    (fun acc s => if acc.length < 5 ∧ ¬ s ∈ acc then acc ++ [s] else acc) kps

/-- The summary selection of `generateAdvancedSummary` as a function of
the ranked sentence list. -/
def summarySelection (rank : List (Nat × String) → List (Nat × String))
    (text : String) : List (Nat × String) :=
  selectSummary (rank (splitIntoSentences (jsTrim text)).enum)
    (splitIntoSentences (jsTrim text)).length

/-- `generateAdvancedSummary(text)`.  `rank` stands for the
score-descending stable sort `[...combinedScores].sort((a, b) =>
b.score - a.score)` whose floating-point scores are not reproduced; the
theorems below constrain it to a permutation of the indexed sentences. -/
def generateAdvancedSummary (rank : List (Nat × String) → List (Nat × String))
    (text : String) : SummaryResult :=
  if text = "" ∨ jsTrim text = "" then
    { keyPoints := [], summary := "", actionItems := [],
      wordCount := 0, sentenceCount := 0, compressionRatio := none }
  else
    let cleanText := jsTrim text
    let wordCount := (jsSplitWs cleanText).length
    if wordCount < 30 then
      { keyPoints := [cleanText], summary := cleanText, actionItems := [],
        wordCount := wordCount, sentenceCount := 1, compressionRatio := none }
    else
      let sentences := splitIntoSentences cleanText
      let sentenceCount := sentences.length
      let combined := sentences.enum
      let ranked := rank combined
      let summaryParts := selectSummary ranked sentenceCount
      let selectedIdx := (ranked.take (targetCount sentenceCount)).map Prod.fst
      let keyPoints0 := ((ranked.filter
        (fun p => decide (¬ p.1 ∈ selectedIdx))).take 5).map Prod.snd
      { keyPoints := if keyPoints0.length < 3 then
            backfillKeyPoints keyPoints0 (summaryParts.map Prod.snd)
          else keyPoints0,
        summary := renderSummary summaryParts cleanText,
        actionItems := ((combined.filter
          (fun p => isActionSentence p.2)).take 5).map Prod.snd,
        wordCount := wordCount,
        sentenceCount := sentenceCount,
        compressionRatio := some (jsRound
          (((jsSplitWs (joinedSummary summaryParts)).length : ℚ)
            / (wordCount : ℚ) * 100)) }

/-! ## Claim theorems: extractive summarizer -/

theorem sortByKey_pairwise_lt (m : List (Nat × String))
    (hm : (m.map Prod.fst).Nodup) :
    (sortByKey m).Pairwise (fun a b => a.1 < b.1) := by
  have hs : (sortByKey m).Pairwise (fun a b => keyLe a b = true) :=
    sortBy_pairwise keyLe_total keyLe_trans m
  have hn : (sortByKey m).Pairwise (fun a b => a.1 ≠ b.1) := by
    have hnd2 : ((sortByKey m).map Prod.fst).Nodup :=
      (((sortBy_perm keyLe m).map Prod.fst).nodup_iff).mpr hm
    exact List.pairwise_map.mp hnd2
  exact (hs.and hn).imp (fun hab =>
    Nat.lt_of_le_of_ne (of_decide_eq_true hab.1) hab.2)

/-- C4: on text of at least 30 words with N segments, the summary
selection holds at most `min(max(2, ceil(0.3 N)), 5)` segments, they are
actual document segments listed in strictly increasing document order
(never score-rank order), and the result's summary string is rendered
from exactly that selection. -/
theorem c4_summary_length_and_order (text : String)
    (rank : List (Nat × String) → List (Nat × String))
    (h30 : 30 ≤ (jsSplitWs (jsTrim text)).length)
    (hperm : (rank (splitIntoSentences (jsTrim text)).enum).Perm
      (splitIntoSentences (jsTrim text)).enum) :
    (summarySelection rank text).length
        ≤ targetCount (splitIntoSentences (jsTrim text)).length ∧
    ((summarySelection rank text).map Prod.fst).Pairwise (· < ·) ∧
    (∀ p ∈ summarySelection rank text,
        p ∈ (splitIntoSentences (jsTrim text)).enum) ∧
    (generateAdvancedSummary rank text).sentenceCount
        = (splitIntoSentences (jsTrim text)).length ∧
    (generateAdvancedSummary rank text).summary
        = renderSummary (summarySelection rank text) (jsTrim text) := by
  have hlen : (summarySelection rank text).length
      ≤ targetCount (splitIntoSentences (jsTrim text)).length := by
    unfold summarySelection selectSummary sortByKey
    rw [sortBy_length]
    exact List.length_take_le _ _
  have hnodup : (((rank (splitIntoSentences (jsTrim text)).enum).take
      (targetCount (splitIntoSentences (jsTrim text)).length)).map Prod.fst).Nodup := by
    have h1 : ((splitIntoSentences (jsTrim text)).enum.map Prod.fst).Nodup := by
      rw [List.enum_map_fst]
      exact List.nodup_range _
    have h2 : ((rank (splitIntoSentences (jsTrim text)).enum).map Prod.fst).Nodup :=
      ((hperm.map Prod.fst).nodup_iff).mpr h1
    exact List.Nodup.sublist ((List.take_sublist _ _).map Prod.fst) h2
  have horder : ((summarySelection rank text).map Prod.fst).Pairwise (· < ·) := by
    unfold summarySelection selectSummary
    exact List.pairwise_map.mpr (sortByKey_pairwise_lt _ hnodup)
  have hmem : ∀ p ∈ summarySelection rank text,
      p ∈ (splitIntoSentences (jsTrim text)).enum := by
    intro p hp
    unfold summarySelection selectSummary sortByKey at hp
    have hp2 := (sortBy_perm keyLe _).mem_iff.mp hp
    have hp3 := (List.take_sublist _ _).subset hp2
    exact hperm.mem_iff.mp hp3
  have hne : ¬ (text = "" ∨ jsTrim text = "") := by
    rintro (rfl | hh)
    · exact absurd h30 (by decide)
    · rw [hh] at h30; exact absurd h30 (by decide)
  have hge : ¬ ((jsSplitWs (jsTrim text)).length < 30) := Nat.not_lt.mpr h30
  refine ⟨hlen, horder, hmem, ?_, ?_⟩
  · simp only [generateAdvancedSummary]
    rw [if_neg hne, if_neg hge]
  · simp only [generateAdvancedSummary]
    rw [if_neg hne, if_neg hge]
    rfl

/-- Witness for C4 on a 30-word unpunctuated text (one segment, so the
target is 2 and the single segment is selected). -/
theorem c4_summary_length_and_order_witness :
    (summarySelection (fun l => l)
      "a0 a1 a2 a3 a4 a5 a6 a7 a8 a9 b0 b1 b2 b3 b4 b5 b6 b7 b8 b9 c0 c1 c2 c3 c4 c5 c6 c7 c8 c9").length
      ≤ targetCount (splitIntoSentences (jsTrim
      "a0 a1 a2 a3 a4 a5 a6 a7 a8 a9 b0 b1 b2 b3 b4 b5 b6 b7 b8 b9 c0 c1 c2 c3 c4 c5 c6 c7 c8 c9")).length ∧
    ((summarySelection (fun l => l)
      "a0 a1 a2 a3 a4 a5 a6 a7 a8 a9 b0 b1 b2 b3 b4 b5 b6 b7 b8 b9 c0 c1 c2 c3 c4 c5 c6 c7 c8 c9").map
        Prod.fst).Pairwise (· < ·) := by
  have h := c4_summary_length_and_order
    "a0 a1 a2 a3 a4 a5 a6 a7 a8 a9 b0 b1 b2 b3 b4 b5 b6 b7 b8 b9 c0 c1 c2 c3 c4 c5 c6 c7 c8 c9"
    (fun l => l) (by decide) (List.Perm.refl _)
  exact ⟨h.1, h.2.1⟩

/-- C5 counterexample: the claim says the input text is returned
verbatim, but the code returns the trimmed text, which differs on input
with surrounding whitespace. -/
theorem c5_short_text_counterexample :
    (generateAdvancedSummary (fun l => l) "  two words  ").summary
      ≠ "  two words  " := by
  decide

/-- C5 (amended): on non-blank input of fewer than 30 whitespace-
separated words, the summarizer returns the trimmed input as the summary
and as the sole key point, with no action items, word count as counted,
sentence count 1, and no compression field. -/
theorem c5_short_text_passthrough (text : String)
    (rank : List (Nat × String) → List (Nat × String))
    (hne : jsTrim text ≠ "")
    (hw : (jsSplitWs (jsTrim text)).length < 30) :
    generateAdvancedSummary rank text =
      { keyPoints := [jsTrim text], summary := jsTrim text, actionItems := [],
        wordCount := (jsSplitWs (jsTrim text)).length, sentenceCount := 1,
        compressionRatio := none } := by
  have hor : ¬ (text = "" ∨ jsTrim text = "") := by
    rintro (rfl | hh)
    · exact hne rfl
    · exact hne hh
  simp only [generateAdvancedSummary]
  rw [if_neg hor, if_pos hw]

/-- Witness for C5 (amended) on a concrete 4-word input. -/
theorem c5_short_text_passthrough_witness :
    generateAdvancedSummary (fun l => l) "Budget review tomorrow morning" =
      { keyPoints := ["Budget review tomorrow morning"],
        summary := "Budget review tomorrow morning", actionItems := [],
        wordCount := 4, sentenceCount := 1, compressionRatio := none } := by
  have h := c5_short_text_passthrough "Budget review tomorrow morning"
    (fun l => l) (by decide) (by decide)
  rw [h]
  decide

/-- C6 counterexample: the claim says the `compressionRatio` field is
the ratio of summary words to input words, but on a 30-word text whose
summary is the whole text the field is `100` (a rounded percentage)
while the ratio is `1`. -/
theorem c6_compression_counterexample :
    (generateAdvancedSummary (fun l => l)
      "a0 a1 a2 a3 a4 a5 a6 a7 a8 a9 b0 b1 b2 b3 b4 b5 b6 b7 b8 b9 c0 c1 c2 c3 c4 c5 c6 c7 c8 c9").compressionRatio
      = some 100 ∧
    ((jsSplitWs (generateAdvancedSummary (fun l => l)
      "a0 a1 a2 a3 a4 a5 a6 a7 a8 a9 b0 b1 b2 b3 b4 b5 b6 b7 b8 b9 c0 c1 c2 c3 c4 c5 c6 c7 c8 c9").summary).length : ℚ)
      / ((generateAdvancedSummary (fun l => l)
      "a0 a1 a2 a3 a4 a5 a6 a7 a8 a9 b0 b1 b2 b3 b4 b5 b6 b7 b8 b9 c0 c1 c2 c3 c4 c5 c6 c7 c8 c9").wordCount : ℚ)
      = 1 ∧
    (100 : ℤ) ≠ 1 := by
  have e1 : (jsSplitWs (joinedSummary (summarySelection (fun l => l)
      "a0 a1 a2 a3 a4 a5 a6 a7 a8 a9 b0 b1 b2 b3 b4 b5 b6 b7 b8 b9 c0 c1 c2 c3 c4 c5 c6 c7 c8 c9"))).length
      = 30 := by decide
  have e2 : (jsSplitWs (jsTrim
      "a0 a1 a2 a3 a4 a5 a6 a7 a8 a9 b0 b1 b2 b3 b4 b5 b6 b7 b8 b9 c0 c1 c2 c3 c4 c5 c6 c7 c8 c9")).length
      = 30 := by decide
  have e3 : (jsSplitWs (generateAdvancedSummary (fun l => l)
      "a0 a1 a2 a3 a4 a5 a6 a7 a8 a9 b0 b1 b2 b3 b4 b5 b6 b7 b8 b9 c0 c1 c2 c3 c4 c5 c6 c7 c8 c9").summary).length
      = 30 := by decide
  have e4 : (generateAdvancedSummary (fun l => l)
      "a0 a1 a2 a3 a4 a5 a6 a7 a8 a9 b0 b1 b2 b3 b4 b5 b6 b7 b8 b9 c0 c1 c2 c3 c4 c5 c6 c7 c8 c9").wordCount
      = 30 := by decide
  have hcr0 : (generateAdvancedSummary (fun l => l)
      "a0 a1 a2 a3 a4 a5 a6 a7 a8 a9 b0 b1 b2 b3 b4 b5 b6 b7 b8 b9 c0 c1 c2 c3 c4 c5 c6 c7 c8 c9").compressionRatio
      = some (jsRound (((jsSplitWs (joinedSummary (summarySelection (fun l => l)
          "a0 a1 a2 a3 a4 a5 a6 a7 a8 a9 b0 b1 b2 b3 b4 b5 b6 b7 b8 b9 c0 c1 c2 c3 c4 c5 c6 c7 c8 c9"))).length : ℚ)
          / ((jsSplitWs (jsTrim
          "a0 a1 a2 a3 a4 a5 a6 a7 a8 a9 b0 b1 b2 b3 b4 b5 b6 b7 b8 b9 c0 c1 c2 c3 c4 c5 c6 c7 c8 c9")).length : ℚ)
          * 100)) := rfl
  refine ⟨?_, ?_, by decide⟩
  · rw [hcr0, e1, e2]
    norm_num [jsRound]
  · rw [e3, e4]
    norm_num

/-- C6 (amended): on text of at least 30 words, when the joined summary
is non-empty (so the summary field is the joined selection itself), the
`compressionRatio` field is the summary-to-input word ratio expressed as
a rounded percentage: `Math.round(100 * summaryWords / totalWords)`. -/
theorem c6_compression_is_rounded_percentage (text : String)
    (rank : List (Nat × String) → List (Nat × String))
    (h30 : 30 ≤ (jsSplitWs (jsTrim text)).length)
    (hj : joinedSummary (summarySelection rank text) ≠ "") :
    (generateAdvancedSummary rank text).compressionRatio
      = some (jsRound
          (((jsSplitWs (generateAdvancedSummary rank text).summary).length : ℚ)
            / ((generateAdvancedSummary rank text).wordCount : ℚ) * 100)) := by
  have hne : ¬ (text = "" ∨ jsTrim text = "") := by
    rintro (rfl | hh)
    · exact absurd h30 (by decide)
    · rw [hh] at h30; exact absurd h30 (by decide)
  have hge : ¬ ((jsSplitWs (jsTrim text)).length < 30) := Nat.not_lt.mpr h30
  have hj' : joinedSummary (selectSummary
      (rank (splitIntoSentences (jsTrim text)).enum)
      (splitIntoSentences (jsTrim text)).length) ≠ "" := hj
  simp only [generateAdvancedSummary]
  rw [if_neg hne, if_neg hge]
  dsimp only
  unfold renderSummary
  rw [if_neg hj']

/-- Witness for C6 (amended) on the 30-word text: the field is 100 and
the recomputed rounded percentage is also 100. -/
theorem c6_compression_is_rounded_percentage_witness :
    (generateAdvancedSummary (fun l => l)
      "a0 a1 a2 a3 a4 a5 a6 a7 a8 a9 b0 b1 b2 b3 b4 b5 b6 b7 b8 b9 c0 c1 c2 c3 c4 c5 c6 c7 c8 c9").compressionRatio
      = some (jsRound
          (((jsSplitWs (generateAdvancedSummary (fun l => l)
            "a0 a1 a2 a3 a4 a5 a6 a7 a8 a9 b0 b1 b2 b3 b4 b5 b6 b7 b8 b9 c0 c1 c2 c3 c4 c5 c6 c7 c8 c9").summary).length : ℚ)
            / ((generateAdvancedSummary (fun l => l)
            "a0 a1 a2 a3 a4 a5 a6 a7 a8 a9 b0 b1 b2 b3 b4 b5 b6 b7 b8 b9 c0 c1 c2 c3 c4 c5 c6 c7 c8 c9").wordCount : ℚ) * 100)) :=
  c6_compression_is_rounded_percentage
    "a0 a1 a2 a3 a4 a5 a6 a7 a8 a9 b0 b1 b2 b3 b4 b5 b6 b7 b8 b9 c0 c1 c2 c3 c4 c5 c6 c7 c8 c9"
    (fun l => l) (by decide) (by decide)

/-- C7: on empty or whitespace-only input the summarizer returns, without
failing, the all-empty degenerate result (empty key points, empty
summary, no action items, zero word and sentence counts). -/
theorem c7_blank_input_degenerate (text : String)
    (rank : List (Nat × String) → List (Nat × String))
    (h : jsTrim text = "") :
    generateAdvancedSummary rank text =
      { keyPoints := [], summary := "", actionItems := [],
        wordCount := 0, sentenceCount := 0, compressionRatio := none } := by
  simp only [generateAdvancedSummary]
  rw [if_pos (Or.inr h)]

/-- Witness for C7 on a whitespace-only input. -/
theorem c7_blank_input_degenerate_witness :
    generateAdvancedSummary (fun l => l) "   " =
      { keyPoints := [], summary := "", actionItems := [],
        wordCount := 0, sentenceCount := 0, compressionRatio := none } :=
  c7_blank_input_degenerate "   " (fun l => l) (by decide)

/-! ## Note enhancement merger -/

/-- The stop-word set of the source, in source order (the duplicate
`just` of the source literal is kept; membership is unaffected). -/
def STOP_WORDS : List String :=
  ["i", "me", "my", "myself", "we", "our", "ours", "ourselves", "you", "your", "yours",
   "yourself", "yourselves", "he", "him", "his", "himself", "she", "her", "hers", "herself",
   "it", "its", "itself", "they", "them", "their", "theirs", "themselves", "what", "which",
   "who", "whom", "this", "that", "these", "those", "am", "is", "are", "was", "were", "be",
   "been", "being", "have", "has", "had", "having", "do", "does", "did", "doing", "a", "an",
   "the", "and", "but", "if", "or", "because", "as", "until", "while", "of", "at", "by",
   "for", "with", "about", "against", "between", "into", "through", "during", "before",
   "after", "above", "below", "to", "from", "up", "down", "in", "out", "on", "off", "over",
   "under", "again", "further", "then", "once", "here", "there", "when", "where", "why",
   "how", "all", "each", "few", "more", "most", "other", "some", "such", "no", "nor", "not",
   "only", "own", "same", "so", "than", "too", "very", "s", "t", "can", "will", "just",
   "don", "should", "now", "d", "ll", "m", "o", "re", "ve", "y", "ain", "aren", "couldn",
   "didn", "doesn", "hadn", "hasn", "haven", "isn", "ma", "mightn", "mustn", "needn",
   "shan", "shouldn", "wasn", "weren", "won", "wouldn", "um", "uh", "like", "know", "yeah",
   "okay", "ok", "right", "well", "going", "got", "get", "thing", "things", "way", "would",
   "could", "also", "really", "actually", "basically", "just", "think", "something", "kind"]

/-- `tokenize`: lowercase, replace every character that is neither a
word character nor whitespace by a space, split on whitespace, keep
tokens of length greater than 1. -/
def tokenize (text : String) : List String :=
  (jsSplitWsList ((text.data.map Char.toLower).map
    (fun c => if isWordChar c || c.isWhitespace then c else ' '))).filter
    (fun w => decide (1 < w.length))

/-- `getContentWords`: tokens that are not stop words and are longer
than 2 characters. -/
def getContentWords (text : String) : List String :=
  (tokenize text).filter
    (fun w => !(STOP_WORDS.contains w) && decide (2 < w.length))

/-- Iteration order of a JS `Set` built from a list: first occurrences. -/
def jsDedupGo : List String → List String → List String
  | [], _ => []
  | x :: xs, seen =>
    if x ∈ seen then jsDedupGo xs seen else x :: jsDedupGo xs (x :: seen)

def jsDedup (l : List String) : List String := jsDedupGo l []

/-- Insertion-ordered frequency bump,
`map.set(w, (map.get(w) || 0) + 1)`. -/
def bumpCount (m : List (String × Nat)) (w : String) : List (String × Nat) :=
  if m.any (fun p => decide (p.1 = w)) then
    m.map (fun p => if p.1 = w then (p.1, p.2 + 1) else p)
  else m ++ [(w, 1)]

/-- The topic-frequency map of the note lines (content words longer
than 3 characters). -/
def noteTopicsOf (noteLines : List String) : List (String × Nat) :=
  noteLines.foldl (fun m line =>
    (getContentWords line).foldl
      (fun m' w => if 3 < w.length then bumpCount m' w else m') m) []

/-- Descending-count comparison `(a, b) => b[1] - a[1]`. -/
def countGe (a b : String × Nat) : Bool := decide (b.2 ≤ a.2)

/-- The top 20 topics of the notes, by frequency. -/
def topTopicsOf (noteLines : List String) : List String :=
  ((sortBy countGe (noteTopicsOf noteLines)).take 20).map Prod.fst

/-- One transcript sentence classified against the notes: dropped when
it is 20 characters or shorter or too similar (Jaccard above 0.4) to
some existing line; otherwise related (with its matching-topic count)
when it shares at least one topic word, else new information. -/
def classifySentence (noteLines topTopics : List String)
    (acc : List (String × Nat) × List String) (sentence : String) :
    List (String × Nat) × List String :=
  let sentenceWords := (getContentWords sentence).toFinset
  let matching := (jsDedup (getContentWords sentence)).filter
    (fun w => topTopics.contains w)
  let isDup := noteLines.any (fun line =>
    decide ((2 : ℚ) / 5 < jaccardSimilarity ((getContentWords line).toFinset)
      sentenceWords))
  if !isDup && decide (20 < sentence.length) then
    if 1 ≤ matching.length then (acc.1 ++ [(sentence, matching.length)], acc.2)
    else (acc.1, acc.2 ++ [sentence])
  else acc

/-- The classification of all transcript sentences
(related-with-count, new-information). -/
def classifiedOf (noteLines : List String) (transcription : String) :
    List (String × Nat) × List String :=
  (splitIntoSentences transcription).foldl
    (classifySentence noteLines (topTopicsOf noteLines)) ([], [])

/-- Related sentences sorted by matching-topic count, descending. -/
def relatedInfoOf (noteLines : List String) (transcription : String) :
    List (String × Nat) :=
  sortBy countGe (classifiedOf noteLines transcription).1

/-- Sentences classified as new information, in document order. -/
def newInfoOf (noteLines : List String) (transcription : String) : List String :=
  (classifiedOf noteLines transcription).2

/-- JS `s.split('\n')`. -/
def splitNlGo : List Char → List Char → List String
  | [], acc => [String.mk acc.reverse]
  | c :: cs, acc =>
    if c = '\n' then String.mk acc.reverse :: splitNlGo cs []
    else splitNlGo cs (c :: acc)

def jsSplitNl (s : String) : List String := splitNlGo s.data []

/-- The non-blank trimmed lines of the existing notes. -/
def noteLinesOf (existingNotes : String) : List String :=
  ((jsSplitNl existingNotes).map jsTrim).filter (fun l => decide (0 < l.length))

/-- `/^\d+\./.test(line)`. -/
def startsWithNumDot (s : String) : Bool :=
  decide ((s.data.takeWhile Char.isDigit) ≠ []) &&
    decide ((s.data.dropWhile Char.isDigit).head? = some '.')

/-- Does the line already look like a list item (`-`, `*` or `1.`)? -/
def isListLine (line : String) : Bool :=
  line.startsWith "-" || line.startsWith "*" || startsWithNumDot line

/-- One original-notes line of the output: re-prefixed with `- ` unless
already list-formatted. -/
def renderNoteLine (line : String) : String :=
  if isListLine line then line ++ "\n" else "- " ++ line ++ "\n"

/-- Dash list items. -/
def renderItems (items : List String) : String :=
  String.join (items.map (fun s => "- " ++ s ++ "\n"))

/-- Unchecked checklist items. -/
def renderChecks (items : List String) : String :=
  String.join (items.map (fun s => "- [ ] " ++ s ++ "\n"))

/-- `generateEnhancedNotes(existingNotes, transcription)`; `rank` is the
score oracle of the inner `generateAdvancedSummary` call. -/
def generateEnhancedNotes (rank : List (Nat × String) → List (Nat × String))
    (existingNotes transcription : String) : String :=
  let noteLines := noteLinesOf existingNotes
  let transcriptSummary := generateAdvancedSummary rank transcription
  let relatedInfo := relatedInfoOf noteLines transcription
  let newInfo := newInfoOf noteLines transcription
  "# Enhanced Notes\n\n"
    ++ "## Original Notes\n" ++ String.join (noteLines.map renderNoteLine) ++ "\n"
    ++ (if 0 < relatedInfo.length then
        "## Expanded Details from Recording\n_Information from the recording that relates to your notes:_\n\n"
          ++ renderItems ((relatedInfo.take 6).map Prod.fst) ++ "\n"
      else "")
    ++ (if 0 < newInfo.length then
        "## New Information from Recording\n_Additional topics discussed that weren't in your original notes:_\n\n"
          ++ renderItems (newInfo.take 5) ++ "\n"
      else "")
    ++ (if 0 < transcriptSummary.keyPoints.length then
        "## Key Points\n" ++ renderItems (transcriptSummary.keyPoints.take 5) ++ "\n"
      else "")
    ++ (if 0 < transcriptSummary.actionItems.length then
        "## Action Items\n" ++ renderChecks transcriptSummary.actionItems ++ "\n"
      else "")
    ++ "## Recording Summary\n" ++ transcriptSummary.summary ++ "\n"

/-! ## Claim theorems: note enhancement -/

/-- A dash-item section that is omitted entirely when it has no
entries. -/
def optSection (header : String) (items : List String) : String :=
  if 0 < items.length then header ++ renderItems items ++ "\n" else ""

theorem optSection_of_iff (header : String) (items : List String) (c : Prop)
    [Decidable c] (h : c ↔ 0 < items.length) :
    (if c then header ++ renderItems items ++ "\n" else "")
      = optSection header items := by
  unfold optSection
  by_cases hc : c
  · rw [if_pos hc, if_pos (h.mp hc)]
  · rw [if_neg hc, if_neg (fun hh => hc (h.mpr hh))]

/-- Naive substring test (for refuting an "omitted entirely" claim). -/
def prefixEq : List Char → List Char → Bool
  | [], _ => true
  | _ :: _, [] => false
  | p :: ps, c :: cs => decide (p = c) && prefixEq ps cs

def containsChars : List Char → List Char → Bool
  | [], pat => decide (pat = [])
  | c :: cs, pat => prefixEq pat (c :: cs) || containsChars cs pat

def strContains (s pat : String) : Bool := containsChars s.data pat.data

/-- C8 counterexample: with blank existing notes the Original Notes
section has zero entries, yet its header still appears in the enhanced
document — zero-entry sections are not all omitted. -/
theorem c8_section_structure_counterexample :
    noteLinesOf " " = [] ∧
    strContains (generateEnhancedNotes (fun l => l) " "
        "Budget review meeting tomorrow morning with the whole team")
      "## Original Notes" = true := by
  exact ⟨by decide, by decide⟩

/-- C8 (amended): the enhanced document is always composed in the fixed
order Original Notes, Expanded/Related Details (at most 6), New
Information (at most 5), Key Points (at most 5), Action Items (one
unchecked checklist item per action), Recording Summary; the four middle
sections are omitted entirely when empty, while the Original Notes and
Recording Summary sections always appear. -/
theorem c8_section_structure (rank : List (Nat × String) → List (Nat × String))
    (existingNotes transcription : String) :
    ∃ (related newItems keyPts acts : List String) (summaryText : String),
      related.length ≤ 6 ∧ newItems.length ≤ 5 ∧ keyPts.length ≤ 5 ∧
      generateEnhancedNotes rank existingNotes transcription
        = "# Enhanced Notes\n\n"
          ++ "## Original Notes\n"
            ++ String.join ((noteLinesOf existingNotes).map renderNoteLine) ++ "\n"
          ++ optSection "## Expanded Details from Recording\n_Information from the recording that relates to your notes:_\n\n" related
          ++ optSection "## New Information from Recording\n_Additional topics discussed that weren't in your original notes:_\n\n" newItems
          ++ optSection "## Key Points\n" keyPts
          ++ (if 0 < acts.length then
              "## Action Items\n" ++ renderChecks acts ++ "\n" else "")
          ++ "## Recording Summary\n" ++ summaryText ++ "\n" := by
  refine ⟨((relatedInfoOf (noteLinesOf existingNotes) transcription).take 6).map Prod.fst,
    (newInfoOf (noteLinesOf existingNotes) transcription).take 5,
    (generateAdvancedSummary rank transcription).keyPoints.take 5,
    (generateAdvancedSummary rank transcription).actionItems,
    (generateAdvancedSummary rank transcription).summary,
    ?_, ?_, ?_, ?_⟩
  · rw [List.length_map]; exact List.length_take_le _ _
  · exact List.length_take_le _ _
  · exact List.length_take_le _ _
  · have h1 : 0 < (relatedInfoOf (noteLinesOf existingNotes) transcription).length
        ↔ 0 < (((relatedInfoOf (noteLinesOf existingNotes) transcription).take 6).map
            Prod.fst).length := by
      rw [List.length_map, List.length_take]
      omega
    have h2 : 0 < (newInfoOf (noteLinesOf existingNotes) transcription).length
        ↔ 0 < ((newInfoOf (noteLinesOf existingNotes) transcription).take 5).length := by
      rw [List.length_take]
      omega
    have h3 : 0 < (generateAdvancedSummary rank transcription).keyPoints.length
        ↔ 0 < ((generateAdvancedSummary rank transcription).keyPoints.take 5).length := by
      rw [List.length_take]
      omega
    simp only [generateEnhancedNotes]
    rw [optSection_of_iff _ _ _ h1, optSection_of_iff _ _ _ h2, optSection_of_iff _ _ _ h3]

/-- C9: the enhanced document starts with the Original Notes section,
which reproduces exactly the non-blank trimmed lines of the existing
notes, in their original relative order, each line preserved verbatim up
to an optional `- ` list prefix; everything else is appended after it. -/
theorem c9_original_notes_preserved
    (rank : List (Nat × String) → List (Nat × String))
    (existingNotes transcription : String) :
    (∃ rest : String,
      generateEnhancedNotes rank existingNotes transcription
        = "# Enhanced Notes\n\n" ++ "## Original Notes\n"
          ++ String.join ((noteLinesOf existingNotes).map renderNoteLine)
          ++ "\n" ++ rest) ∧
    noteLinesOf existingNotes
      = ((jsSplitNl existingNotes).map jsTrim).filter (fun l => decide (0 < l.length)) ∧
    (∀ line : String, renderNoteLine line = line ++ "\n" ∨
      renderNoteLine line = "- " ++ (line ++ "\n")) := by
  refine ⟨?_, rfl, ?_⟩
  · refine ⟨(if 0 < (relatedInfoOf (noteLinesOf existingNotes) transcription).length then
        "## Expanded Details from Recording\n_Information from the recording that relates to your notes:_\n\n"
          ++ renderItems (((relatedInfoOf (noteLinesOf existingNotes)
              transcription).take 6).map Prod.fst) ++ "\n"
      else "")
      ++ (if 0 < (newInfoOf (noteLinesOf existingNotes) transcription).length then
        "## New Information from Recording\n_Additional topics discussed that weren't in your original notes:_\n\n"
          ++ renderItems ((newInfoOf (noteLinesOf existingNotes)
              transcription).take 5) ++ "\n"
      else "")
      ++ (if 0 < (generateAdvancedSummary rank transcription).keyPoints.length then
        "## Key Points\n" ++ renderItems
          ((generateAdvancedSummary rank transcription).keyPoints.take 5) ++ "\n"
      else "")
      ++ (if 0 < (generateAdvancedSummary rank transcription).actionItems.length then
        "## Action Items\n" ++ renderChecks
          ((generateAdvancedSummary rank transcription).actionItems) ++ "\n"
      else "")
      ++ "## Recording Summary\n"
      ++ (generateAdvancedSummary rank transcription).summary ++ "\n", ?_⟩
    simp only [generateEnhancedNotes, String.append_assoc]
  · intro line
    unfold renderNoteLine
    by_cases h : isListLine line = true
    · rw [if_pos h]; exact Or.inl rfl
    · rw [if_neg h]
      exact Or.inr (String.append_assoc _ _ _)
